import Mathlib

/-!
Verification of the Yt_Video_Splitter repository (files `Yt_Split_Portrait.py`
and `Yt_Split_FullScreen.py`).  The Python source is shallowly embedded below:
durations and time stamps become rationals (`ℚ`), Python `None` becomes
`Option`, and the command-line `args` record becomes a structure.  Each claim
about the program is then stated and settled as a Lean theorem over these
definitions.
-/

namespace YtSplit

/-! ## TimeSpec parsing (`Yt_Split_Portrait.parse_time`) -/

/-- Splitting of a character list on a separator, the model of Python
`str.split(sep)`: `"a:b".split(":") = ["a","b"]`, `"".split(":") = [""]`. -/
def splitOnChar (sep : Char) : List Char → List (List Char)
  | [] => [[]]
  | c :: rest =>
    let r := splitOnChar sep rest
    if c = sep then [] :: r
    else
      match r with
      | f :: tail => (c :: f) :: tail
      | [] => [[c]]

/-- Value of a decimal digit character, `none` for a non-digit. -/
def digitVal (c : Char) : Option Nat :=
  if c.isDigit then some (c.toNat - 48) else none

/-- Reading a character list as a base-10 natural number; `none` as soon as a
non-digit occurs.  The empty list yields `some 0` (callers guard emptiness). -/
def charsToNat : List Char → Option Nat
  | [] => some 0
  | c :: rest =>
    match digitVal c, charsToNat rest with
    | some d, some n => some (d * 10 ^ rest.length + n)
    | _, _ => none

/-- Unsigned decimal literal: digits with at most one dot.  Model of Python
`float(...)` restricted to the plain decimal literals this program receives
(no exponent, no `inf`/`nan`, no whitespace). -/
def parseUnsigned (cs : List Char) : Option ℚ :=
  match splitOnChar '.' cs with
  | [intPart] =>
    if intPart.isEmpty then none
    else (charsToNat intPart).map (fun n => (n : ℚ))
  | [intPart, fracPart] =>
    if intPart.isEmpty && fracPart.isEmpty then none
    else
      match charsToNat intPart, charsToNat fracPart with
      | some i, some f => some ((i : ℚ) + (f : ℚ) / (10 : ℚ) ^ fracPart.length)
      | _, _ => none
  | _ => none

/-- One numeric field, with an optional leading sign, the model of Python
`float(field)` on the literals reaching `parse_time`. -/
def parseField (cs : List Char) : Option ℚ :=
  match cs with
  | '-' :: rest => (parseUnsigned rest).map (fun q => -q)
  | '+' :: rest => parseUnsigned rest
  | _ => parseUnsigned cs

/-- Model of `list(map(float, parts))` with exception propagation: `none` when
any field fails to parse. -/
def parseFields : List (List Char) → Option (List ℚ)
  | [] => some []
  | f :: rest =>
    match parseField f, parseFields rest with
    | some v, some vs => some (v :: vs)
    | _, _ => none

/-- Embedding of `Yt_Split_Portrait.parse_time`: a colon-free string is a plain
seconds value; `HH:MM:SS` and `MM:SS` are converted; any other field count or
an unparseable field yields `none` (the function prints and returns `None`). -/
def parse_time (s : String) : Option ℚ :=
  match splitOnChar ':' s.data with
  | [t] => parseField t
  | parts =>
    match parseFields parts with
    | none => none
    | some vals =>
      match vals with
      | [h, m, sec] => some (h * 3600 + m * 60 + sec)
      | [m, sec] => some (m * 60 + sec)
      | _ => none

/-! ## Filter composition (`Yt_Split_FullScreen.build_filters`, lines 26-58) -/

/-- Command-line rendering options of `Yt_Split_FullScreen.py`; optional
string options are `none` when absent. -/
structure RenderArgs where
  aspect_mode : String
  aspect_handling : String
  background : String
  text : Option String
  text_size : Nat
  text_color : Option String
  font : Option String

/-- Python truthiness of an optional string: `None` and `""` are falsy. -/
def truthyStr : Option String → Bool
  | none => false
  | some s => !s.isEmpty

/-- Target width chosen at `Yt_Split_FullScreen.py` lines 28-31. -/
def targetW (args : RenderArgs) : Nat :=
  if args.aspect_mode = "portrait" then 1080 else 1920

/-- Target height chosen at `Yt_Split_FullScreen.py` lines 28-31. -/
def targetH (args : RenderArgs) : Nat :=
  if args.aspect_mode = "portrait" then 1920 else 1080

/-- The `drawtext` stage appended at `Yt_Split_FullScreen.py` lines 49-56:
text color defaults to the opposite of the background unless a truthy
`--text-color` was given; a truthy `--font` adds a `fontfile` clause. -/
def drawtextStage (args : RenderArgs) : String :=
  let textColor :=
    match args.text_color with
    | some c => if c ≠ "" then c else (if args.background = "black" then "white" else "black")
    | none => if args.background = "black" then "white" else "black"
  let font :=
    match args.font with
    | some f => if f ≠ "" then ":fontfile=\x27" ++ f ++ "\x27" else ""
    | none => ""
  "drawtext=text=\x27" ++ args.text.getD "" ++ "\x27" ++ font ++
    ":fontcolor=" ++ textColor ++ ":fontsize=" ++ toString args.text_size ++
    ":x=(w-text_w)/2:y=(h-text_h)/2"

/-- The ordered filter stages built by `Yt_Split_FullScreen.build_filters`:
first the aspect stage(s) selected by `--aspect-handling` (the `original`
fall-through returns `None`), then the optional `drawtext` stage. -/
def build_filter_stages (args : RenderArgs) : Option (List String) :=
  let tw := toString (targetW args)
  let th := toString (targetH args)
  let base : Option (List String) :=
    if args.aspect_handling = "crop" then
      some ["scale=" ++ tw ++ ":" ++ th ++ ":force_original_aspect_ratio=increase",
            "crop=" ++ tw ++ ":" ++ th]
    else if args.aspect_handling = "pad" then
      let bg := if args.background ≠ "" then args.background else "black"
      some ["scale=" ++ tw ++ ":" ++ th ++ ":force_original_aspect_ratio=decrease",
            "pad=" ++ tw ++ ":" ++ th ++ ":(ow-iw)/2:(oh-ih)/2:color=" ++ bg]
    else if args.aspect_handling = "stretch" then
      some ["scale=" ++ tw ++ ":" ++ th]
    else none
  base.map (fun fs => if truthyStr args.text then fs ++ [drawtextStage args] else fs)

/-- Embedding of `Yt_Split_FullScreen.build_filters`: the stage list joined
with `','` (line 58), or `None` for the stream-copy path. -/
def build_filters (args : RenderArgs) : Option String :=
  (build_filter_stages args).map (String.intercalate ",")

/-! ## Fixed-mode (60-second) planning

Both variants compute
`segment_count = int(duration // 60) + (1 if duration % 60 > 0 else 0)`
(`Yt_Split_FullScreen.py` line 140, `Yt_Split_Portrait.py` line 139) and loop
`for i in range(segment_count)` with `start = i * 60`.  They differ in the
per-job length: FullScreen passes `min(60, duration - start)` (line 143),
Portrait passes the constant `60` (line 145). -/

/-- Embedding of `int(duration // 60) + (1 if duration % 60 > 0 else 0)`.
Python float `//` is `Int.floor` of the quotient and `%` is
`D - 60 * ⌊D / 60⌋`; `int(...)` on the already-floored value is the
identity on its integer value. -/
def segmentCount60 (D : ℚ) : ℤ :=
  ⌊D / 60⌋ + (if D - 60 * ⌊D / 60⌋ > 0 then 1 else 0)

/-- Jobs `(start, length)` planned by the FullScreen fixed-mode loop
(`Yt_Split_FullScreen.py` lines 141-147): `start = i*60`,
`seg_duration = min(60, duration - start)`. -/
def fsFixedJobs (D : ℚ) : List (ℚ × ℚ) :=
  (List.range (segmentCount60 D).toNat).map
    (fun i : ℕ => ((i : ℚ) * 60, min 60 (D - (i : ℚ) * 60)))

/-- Jobs `(start, length)` planned by the Portrait fixed-mode re-encode loop
(`Yt_Split_Portrait.py` lines 140-146): `start = i*60`, `duration=60`
hard-coded for every job, the last one included. -/
def ptFixedJobs (D : ℚ) : List (ℚ × ℚ) :=
  (List.range (segmentCount60 D).toNat).map
    (fun i : ℕ => ((i : ℚ) * 60, (60 : ℚ)))

/-! ## Custom-mode planning (`Yt_Split_Portrait.main`, lines 153-190) -/

/-- Minimum segment length: the literal `0.1` of
`Yt_Split_Portrait.py` line 174. -/
def minSegLen : ℚ := 1 / 10

/-- Embedding of
`sorted([0] + [p for p in split_points if 0 < p < duration] + [duration])`
(`Yt_Split_Portrait.py` line 169).  Sorting a list of rationals is determined
by its multiset, so insertion sort models Python `sorted` exactly. -/
def customSplitPoints (parsed : List ℚ) (D : ℚ) : List ℚ :=
  List.insertionSort (· ≤ ·)
    ((0 :: parsed.filter (fun p => decide (0 < p ∧ p < D))) ++ [D])

/-- Embedding of the segment-forming loop (`Yt_Split_Portrait.py` lines
170-175): one `(start, end - start)` job per adjacent pair of split points
whose gap exceeds `0.1`. -/
def segmentsOf (points : List ℚ) : List (ℚ × ℚ) :=
  (points.zip points.tail).filterMap
    (fun se => if se.2 - se.1 > minSegLen then some (se.1, se.2 - se.1) else none)

/-- Embedding of the parse loop (`Yt_Split_Portrait.py` lines 158-163): each
raw string's `parse_time` result in order; the first `None` aborts the whole
plan.  Raw strings are represented by their parse results. -/
def parseAllCuts : List (Option ℚ) → Option (List ℚ)
  | [] => some []
  | none :: _ => none
  | some x :: rest => (parseAllCuts rest).map (fun l => x :: l)

/-- Embedding of the Portrait custom-split planning path
(`Yt_Split_Portrait.py` lines 153-179): requires `--split-times`, parses every
cut (aborting on the first failure), requires a truthy probed duration
(`if not duration`), builds the split points and segments, and fails when no
segment survives the threshold.  `none` is "error reported, zero jobs run". -/
def portraitCustomPlan (raw : List (Option ℚ)) (probe : Option ℚ) :
    Option (List (ℚ × ℚ)) :=
  if raw = [] then none
  else
    match parseAllCuts raw with
    | none => none
    | some pts =>
      match probe with
      | none => none
      | some d =>
        if d = 0 then none
        else
          let segs := segmentsOf (customSplitPoints pts d)
          if segs = [] then none else some segs

/-! ## Job runner loops -/

/-- Executed jobs with their success flags for the Portrait loops
(`Yt_Split_Portrait.py` lines 140-148 and 182-190): `if not success: return`
aborts after the first failing job. -/
def portraitRun (ok : ℚ × ℚ → Bool) : List (ℚ × ℚ) → List ((ℚ × ℚ) × Bool)
  | [] => []
  | j :: rest => if ok j then (j, true) :: portraitRun ok rest else [(j, false)]

/-- Executed jobs with their success flags for the FullScreen fixed-mode loop
(`Yt_Split_FullScreen.py` lines 141-147): `process_segment`'s return value is
discarded, so every planned job is invoked regardless of earlier failures. -/
def fullscreenFixedRun (ok : ℚ × ℚ → Bool) (jobs : List (ℚ × ℚ)) :
    List ((ℚ × ℚ) × Bool) :=
  jobs.map (fun j => (j, ok j))

/-! ## Pipeline dispatch after environment and input-file validation -/

/-- Outcome of one `main` branch: the jobs handed to the encoder, whether the
branch stopped early (a bare `return` before its normal end), and whether an
error message was printed. -/
structure PipeResult where
  ranJobs : List (ℚ × ℚ)
  stoppedEarly : Bool
  reportedError : Bool
deriving DecidableEq

/-- Embedding of the Portrait fixed-mode re-encode branch
(`Yt_Split_Portrait.py` lines 134-149, `aspect != original`): probe failure
prints and stops; a probed value failing the truthiness test `if not duration`
(i.e. `0.0`) stops silently; otherwise the jobs run with abort-on-failure. -/
def portraitFixedDispatch (ok : ℚ × ℚ → Bool) (probe : Option ℚ) : PipeResult :=
  match probe with
  | none => ⟨[], true, true⟩
  | some d =>
    if d = 0 then ⟨[], true, false⟩
    else
      let ran := portraitRun ok (ptFixedJobs d)
      ⟨ran.map Prod.fst, ran.any (fun r => !r.2), ran.any (fun r => !r.2)⟩

/-- Embedding of the FullScreen fixed-mode branch (`Yt_Split_FullScreen.py`
lines 134-149): only `duration is None` stops; any probed number, `0.0`
included, proceeds, runs every planned job and prints the completion line. -/
def fullscreenFixedDispatch (ok : ℚ × ℚ → Bool) (probe : Option ℚ) : PipeResult :=
  match probe with
  | none => ⟨[], true, true⟩
  | some d =>
    let ran := fullscreenFixedRun ok (fsFixedJobs d)
    ⟨ran.map Prod.fst, false, ran.any (fun r => !r.2)⟩

/-- Embedding of the FullScreen `main` dispatch on `--split-option`
(`Yt_Split_FullScreen.py` lines 134-151): the `'60'` branch does the fixed
split; the `custom` branch is only a comment (line 151), so `main` falls
through and ends normally with nothing done. -/
def fullscreenMainDispatch (splitOption : String) (ok : ℚ × ℚ → Bool)
    (probe : Option ℚ) : PipeResult :=
  if splitOption = "60" then fullscreenFixedDispatch ok probe
  else ⟨[], false, false⟩

/-! ## Lemmas about the TimeSpec parser -/

lemma parseFields_length :
    ∀ {l : List (List Char)} {r : List ℚ}, parseFields l = some r → r.length = l.length := by
  intro l
  induction l with
  | nil => intro r h; simp [parseFields] at h; simp [← h]
  | cons f rest ih =>
    intro r h
    simp only [parseFields] at h
    cases hf : parseField f with
    | none => rw [hf] at h; exact absurd h (by simp)
    | some v =>
      cases hr : parseFields rest with
      | none => rw [hf, hr] at h; exact absurd h (by simp)
      | some vs =>
        rw [hf, hr] at h
        simp only [Option.some.injEq] at h
        subst h
        simp [ih hr]

lemma parseFields_eq_none {l : List (List Char)} {f : List Char}
    (hmem : f ∈ l) (hf : parseField f = none) : parseFields l = none := by
  induction l with
  | nil => cases hmem
  | cons g rest ih =>
    rcases List.mem_cons.mp hmem with h | h
    · subst h; simp [parseFields, hf]
    · simp only [parseFields]
      cases hg : parseField g with
      | none => rfl
      | some v => rw [ih h]

lemma parse_time_none_of_long {s : String}
    (h : 3 < (splitOnChar ':' s.data).length) : parse_time s = none := by
  unfold parse_time
  rcases hps : splitOnChar ':' s.data with _ | ⟨a, _ | ⟨b, _ | ⟨c, _ | ⟨d, rest⟩⟩⟩⟩ <;>
    rw [hps] at h <;> simp at h
  cases hpf : parseFields (a :: b :: c :: d :: rest) with
  | none => simp [hpf]
  | some vals =>
    have hlen := parseFields_length hpf
    simp only [List.length_cons] at hlen
    rcases vals with _ | ⟨v1, _ | ⟨v2, _ | ⟨v3, _ | ⟨v4, vrest⟩⟩⟩⟩ <;> simp at hlen <;>
      simp [hpf]

lemma parse_time_none_of_bad_field {s : String} {f : List Char}
    (hmem : f ∈ splitOnChar ':' s.data) (hf : parseField f = none) :
    parse_time s = none := by
  unfold parse_time
  rcases hps : splitOnChar ':' s.data with _ | ⟨a, _ | ⟨b, t⟩⟩
  · rw [hps] at hmem; cases hmem
  · rw [hps] at hmem
    rcases List.mem_singleton.mp hmem with rfl
    simp [hf]
  · rw [hps] at hmem
    simp [parseFields_eq_none hmem hf]

/-- C3: the TimeSpec parser maps `"90"` to 90, `"01:30"` to 90 and
`"01:00:00"` to 3600 seconds, and returns no value (rather than a wrong
seconds count) on every malformed input: a colon-separated string with more
than three fields, or one with a field that does not parse as a number. -/
theorem C3_timespec_parsing :
    parse_time "90" = some 90
  ∧ parse_time "01:30" = some 90
  ∧ parse_time "01:00:00" = some 3600
  ∧ (∀ s : String, 3 < (splitOnChar ':' s.data).length → parse_time s = none)
  ∧ (∀ s : String, ∀ f ∈ splitOnChar ':' s.data, parseField f = none →
      parse_time s = none) := by
  refine ⟨by decide, ?_, ?_, ?_, ?_⟩
  · simp +decide [parse_time, parseFields, parseField, parseUnsigned, splitOnChar,
      charsToNat, digitVal, Char.reduceToNat]
    norm_num
  · simp +decide [parse_time, parseFields, parseField, parseUnsigned, splitOnChar,
      charsToNat, digitVal, Char.reduceToNat]
  · exact fun s h => parse_time_none_of_long h
  · exact fun s f hmem hf => parse_time_none_of_bad_field hmem hf

/-- Witness for C3 at the concrete malformed input `"1:2:3:4"` of the spec. -/
theorem C3_timespec_parsing_witness :
    3 < (splitOnChar ':' "1:2:3:4".data).length ∧ parse_time "1:2:3:4" = none :=
  ⟨by decide, C3_timespec_parsing.2.2.2.1 "1:2:3:4" (by decide)⟩

/-! ## The Filter Composer claim -/

/-- C5: with aspect handling `original` no filter graph is produced (the
stream-copy path); with handling `pad`, background `black` and no text the
graph is exactly the two stages scale-then-pad referencing 1080x1920 in
portrait mode; a truthy text appends exactly one `drawtext` stage after the
pad (or crop) stage, so the stage order is aspect-scale, then
aspect-crop-or-pad, then text overlay. -/
theorem C5_filter_composer :
    (∀ args : RenderArgs, args.aspect_handling = "original" →
      build_filters args = none)
  ∧ (∀ args : RenderArgs, args.aspect_mode = "portrait" →
      args.aspect_handling = "pad" → args.background = "black" →
      truthyStr args.text = false →
      build_filter_stages args =
        some ["scale=1080:1920:force_original_aspect_ratio=decrease",
              "pad=1080:1920:(ow-iw)/2:(oh-ih)/2:color=black"]
      ∧ build_filters args =
        some ("scale=1080:1920:force_original_aspect_ratio=decrease," ++
              "pad=1080:1920:(ow-iw)/2:(oh-ih)/2:color=black"))
  ∧ (∀ args : RenderArgs, args.aspect_mode = "portrait" →
      args.aspect_handling = "pad" → args.background = "black" →
      truthyStr args.text = true →
      build_filter_stages args =
        some ["scale=1080:1920:force_original_aspect_ratio=decrease",
              "pad=1080:1920:(ow-iw)/2:(oh-ih)/2:color=black",
              drawtextStage args])
  ∧ (∀ args : RenderArgs, args.aspect_mode = "portrait" →
      args.aspect_handling = "crop" → truthyStr args.text = true →
      build_filter_stages args =
        some ["scale=1080:1920:force_original_aspect_ratio=increase",
              "crop=1080:1920",
              drawtextStage args]) := by
  refine ⟨?_, ?_, ?_, ?_⟩
  · intro args h
    simp [build_filters, build_filter_stages, h]
  · intro args hm hh hb ht
    constructor
    · simp [build_filter_stages, targetW, targetH, hm, hh, hb, ht]
      exact ⟨rfl, rfl⟩
    · simp [build_filters, build_filter_stages, targetW, targetH, hm, hh, hb, ht,
        String.intercalate]
      rfl
  · intro args hm hh hb ht
    simp [build_filter_stages, targetW, targetH, hm, hh, hb, ht]
    exact ⟨rfl, rfl⟩
  · intro args hm hh ht
    simp [build_filter_stages, targetW, targetH, hm, hh, ht]
    exact ⟨rfl, rfl⟩

/-- Witness for C5: the `original` and the textless portrait-pad-black
configurations at concrete argument records. -/
theorem C5_filter_composer_witness :
    build_filters ⟨"portrait", "original", "black", none, 48, none, none⟩ = none
  ∧ build_filter_stages ⟨"portrait", "pad", "black", none, 48, none, none⟩ =
      some ["scale=1080:1920:force_original_aspect_ratio=decrease",
            "pad=1080:1920:(ow-iw)/2:(oh-ih)/2:color=black"] :=
  ⟨C5_filter_composer.1 ⟨"portrait", "original", "black", none, 48, none, none⟩ rfl,
   (C5_filter_composer.2.1 ⟨"portrait", "pad", "black", none, 48, none, none⟩
      rfl rfl rfl rfl).1⟩

/-! ## Abort policy and dispatch claims -/

/-- C7 (amended): the Portrait loops (custom mode and fixed mode) abort on the
first failing encode job — the executed jobs are the successful prefix plus at
most the first failing job — while the FullScreen fixed-mode loop ignores
per-job failure and invokes every planned job. -/
theorem C7_abort_policy_amended :
    (∀ (ok : ℚ × ℚ → Bool) (jobs : List (ℚ × ℚ)),
      (portraitRun ok jobs).map Prod.fst =
        jobs.takeWhile ok ++ (jobs.dropWhile ok).take 1)
  ∧ (∀ (ok : ℚ × ℚ → Bool) (jobs : List (ℚ × ℚ)),
      (fullscreenFixedRun ok jobs).map Prod.fst = jobs) := by
  constructor
  · intro ok jobs
    induction jobs with
    | nil => simp [portraitRun]
    | cons j rest ih =>
      by_cases h : ok j
      · simp [portraitRun, h, List.takeWhile_cons, List.dropWhile_cons, ih]
      · simp [portraitRun, h, List.takeWhile_cons, List.dropWhile_cons]
  · intro ok jobs
    simp [fullscreenFixedRun, List.map_map]
    exact List.map_id jobs

/-- Counterexample to C7 as stated: on a 120-second fixed-window plan whose
first job fails, the FullScreen variant still invokes the second job (return
value discarded), while the Portrait loop would have stopped after the
failure. -/
theorem C7_abort_policy_counterexample :
    fullscreenFixedRun (fun j => decide (j.1 ≠ 0)) (fsFixedJobs 120) =
      [((0, 60), false), ((60, 60), true)]
  ∧ portraitRun (fun j => decide (j.1 ≠ 0)) (ptFixedJobs 120) =
      [((0, 60), false)] := by
  have h2 : (segmentCount60 120).toNat = 2 := by norm_num [segmentCount60]; decide
  have hfs : fsFixedJobs 120 = [(0, 60), (60, 60)] := by
    simp only [fsFixedJobs, h2]
    norm_num [List.range_succ]
  have hpt : ptFixedJobs 120 = [(0, 60), (60, 60)] := by
    simp only [ptFixedJobs, h2]
    norm_num [List.range_succ]
  rw [hfs, hpt]
  constructor
  · simp [fullscreenFixedRun]
  · simp [portraitRun]

/-- C9: in the FullScreen variant, dispatching on `--split-option custom`
(after environment and input validation) performs zero encode jobs, stops
nowhere early, and reports no error: the custom branch is an unimplemented
no-op. -/
theorem C9_fullscreen_custom_noop :
    ∀ (ok : ℚ × ℚ → Bool) (probe : Option ℚ),
      fullscreenMainDispatch "custom" ok probe = ⟨[], false, false⟩ := by
  intro ok probe
  simp [fullscreenMainDispatch]

/-- C10: the Portrait variant treats a successfully probed duration of `0.0`
like a probe failure — the truthiness test `if not duration` stops the fixed
branch (silently) and the custom plan, with zero jobs run — whereas the
FullScreen variant stops only on a `None` probe and proceeds normally on
`0.0` (running its zero planned jobs to completion). -/
theorem C10_zero_duration_truthiness :
    (∀ ok : ℚ × ℚ → Bool,
        portraitFixedDispatch ok (some 0) = ⟨[], true, false⟩
      ∧ portraitFixedDispatch ok none = ⟨[], true, true⟩
      ∧ (portraitFixedDispatch ok (some 0)).ranJobs =
          (portraitFixedDispatch ok none).ranJobs
      ∧ (portraitFixedDispatch ok (some 0)).stoppedEarly =
          (portraitFixedDispatch ok none).stoppedEarly
      ∧ fullscreenFixedDispatch ok (some 0) = ⟨[], false, false⟩
      ∧ fullscreenFixedDispatch ok none = ⟨[], true, true⟩)
  ∧ (∀ raw : List (Option ℚ), portraitCustomPlan raw (some 0) = none) := by
  constructor
  · intro ok
    have h0 : (segmentCount60 0).toNat = 0 := by norm_num [segmentCount60]
    refine ⟨by simp [portraitFixedDispatch], rfl, ?_, ?_, ?_, rfl⟩
    · simp [portraitFixedDispatch]
    · simp [portraitFixedDispatch]
    · simp [fullscreenFixedDispatch, fsFixedJobs, h0, fullscreenFixedRun]
  · intro raw
    unfold portraitCustomPlan
    by_cases h : raw = []
    · simp [h]
    · simp only [h, if_false]
      cases hp : parseAllCuts raw with
      | none => rfl
      | some pts => simp

/-! ## Custom-mode failure conditions -/

lemma parseAllCuts_eq_none {raw : List (Option ℚ)} :
    parseAllCuts raw = none ↔ none ∈ raw := by
  induction raw with
  | nil => simp [parseAllCuts]
  | cons t rest ih =>
    cases t with
    | none => simp [parseAllCuts]
    | some x =>
      simp only [parseAllCuts, List.mem_cons]
      cases hr : parseAllCuts rest with
      | none => simp [hr] at ih; simp [ih]
      | some l => simp [hr] at ih; simp [ih]

lemma parseAllCuts_eq_some {raw : List (Option ℚ)} (h : none ∉ raw) :
    parseAllCuts raw = some raw.reduceOption := by
  induction raw with
  | nil => simp [parseAllCuts]
  | cons t rest ih =>
    cases t with
    | none => exact absurd (List.mem_cons_self none rest) h
    | some x =>
      have hrest : none ∉ rest := fun hm => h (List.mem_cons_of_mem _ hm)
      simp [parseAllCuts, ih hrest, List.reduceOption_cons_of_some]

lemma segmentsOf_customSplitPoints_zero (pts : List ℚ) :
    segmentsOf (customSplitPoints pts 0) = [] := by
  have hf : pts.filter (fun p => decide (0 < p ∧ p < 0)) = [] := by
    rw [List.filter_eq_nil_iff]
    intro a _
    simp only [decide_eq_true_eq, not_and]
    exact fun h1 h2 => absurd (h1.trans h2) (lt_irrefl 0)
  have hpoints : customSplitPoints pts 0 = [0, 0] := by
    unfold customSplitPoints
    rw [hf]
    decide
  rw [hpoints]
  norm_num [segmentsOf, minSegLen]

/-- C6: the Portrait custom-split planning fails (reports an error and runs
zero encode jobs) exactly when the duration probe fails, or some raw cut
string fails to parse (the whole plan aborts, no partial plan), or zero valid
segments survive the threshold filter; otherwise the full segment list is
planned.  A probed duration of `0` is rejected by the truthiness test, and
then the segment list is necessarily empty, so the equivalence is exact. -/
theorem C6_custom_plan_failure (raw : List (Option ℚ)) (hraw : raw ≠ []) :
    portraitCustomPlan raw none = none
  ∧ (none ∈ raw → ∀ probe, portraitCustomPlan raw probe = none)
  ∧ (∀ d : ℚ, none ∉ raw →
      (portraitCustomPlan raw (some d) = none ↔
        segmentsOf (customSplitPoints raw.reduceOption d) = []))
  ∧ (∀ d : ℚ, none ∉ raw →
      segmentsOf (customSplitPoints raw.reduceOption d) ≠ [] →
      portraitCustomPlan raw (some d) =
        some (segmentsOf (customSplitPoints raw.reduceOption d))) := by
  refine ⟨?_, ?_, ?_, ?_⟩
  · simp only [portraitCustomPlan, if_neg hraw]
    cases parseAllCuts raw <;> rfl
  · intro hmem probe
    simp [portraitCustomPlan, hraw, parseAllCuts_eq_none.mpr hmem]
  · intro d hnone
    simp only [portraitCustomPlan, if_neg hraw, parseAllCuts_eq_some hnone]
    by_cases hd : d = 0
    · subst hd
      simp [segmentsOf_customSplitPoints_zero]
    · simp only [if_neg hd]
      split_ifs with h <;> simp [h]
  · intro d hnone hsegs
    have hd : d ≠ 0 := by
      intro hd
      subst hd
      exact hsegs (segmentsOf_customSplitPoints_zero _)
    simp [portraitCustomPlan, hraw, parseAllCuts_eq_some hnone, hd, hsegs]

/-- Witness for C6: a single parseable cut `30` on a 100-second probe yields
the full two-segment plan. -/
theorem C6_custom_plan_failure_witness :
    ([some (30 : ℚ)] ≠ ([] : List (Option ℚ)))
  ∧ portraitCustomPlan [some 30] (some 100) =
      some (segmentsOf (customSplitPoints (List.reduceOption [some (30 : ℚ)]) 100)) :=
  ⟨by decide,
   (C6_custom_plan_failure [some 30] (by decide)).2.2.2 100 (by decide)
     (by
        norm_num [customSplitPoints, List.insertionSort, List.orderedInsert,
          segmentsOf, minSegLen, List.filterMap_cons]
        decide)⟩

/-! ## Fixed-mode planning lemmas -/

lemma segmentCount60_eq_ceil (D : ℚ) : segmentCount60 D = ⌈D / 60⌉ := by
  unfold segmentCount60
  by_cases h : D - 60 * ⌊D / 60⌋ > 0
  · rw [if_pos h]
    have h60 : (0 : ℚ) < 60 := by norm_num
    have hlt : ((⌊D / 60⌋ : ℤ) : ℚ) < D / 60 := by
      rw [lt_div_iff h60]
      linarith
    have h1 : ⌊D / 60⌋ < ⌈D / 60⌉ := Int.lt_ceil.mpr hlt
    have h2 : ⌈D / 60⌉ ≤ ⌊D / 60⌋ + 1 := Int.ceil_le_floor_add_one _
    omega
  · rw [if_neg h]
    push_neg at h
    have h60 : (0 : ℚ) < 60 := by norm_num
    have hge : 60 * ((⌊D / 60⌋ : ℤ) : ℚ) ≤ D := by
      have := Int.floor_le (D / 60)
      rw [le_div_iff h60] at this
      linarith
    have heq : D / 60 = ((⌊D / 60⌋ : ℤ) : ℚ) := by
      have : D = 60 * ((⌊D / 60⌋ : ℤ) : ℚ) := le_antisymm (by linarith) hge
      rw [this]
      field_simp
    rw [heq, Int.ceil_intCast, Int.floor_intCast]
    omega

lemma ceil_bounds {D : ℚ} (hD : 0 < D) {m : ℕ}
    (hm : (⌈D / 60⌉).toNat = m + 1) : 60 * (m : ℚ) < D ∧ D ≤ 60 * ((m : ℚ) + 1) := by
  have h60 : (0 : ℚ) < 60 := by norm_num
  have hpos : 0 < ⌈D / 60⌉ := Int.ceil_pos.mpr (by positivity)
  have hcast : (⌈D / 60⌉ : ℤ) = (m : ℤ) + 1 := by omega
  constructor
  · have h1 : ((⌈D / 60⌉ : ℤ) : ℚ) < D / 60 + 1 := Int.ceil_lt_add_one _
    rw [hcast] at h1
    push_cast at h1
    rw [show (m : ℚ) + 1 < D / 60 + 1 ↔ (m : ℚ) < D / 60 from by constructor <;> intro <;> linarith] at h1
    rw [lt_div_iff h60] at h1
    linarith
  · have h2 : D / 60 ≤ ((⌈D / 60⌉ : ℤ) : ℚ) := Int.le_ceil _
    rw [hcast] at h2
    push_cast at h2
    rw [div_le_iff h60] at h2
    linarith

lemma sum_min_sixty : ∀ (m : ℕ) (D : ℚ), 60 * (m : ℚ) < D → D ≤ 60 * ((m : ℚ) + 1) →
    (((List.range (m + 1)).map (fun i : ℕ => min 60 (D - (i : ℚ) * 60))).sum) = D := by
  intro m
  induction m with
  | zero =>
    intro D h1 h2
    norm_num at h1 h2
    simp only [List.range_succ, List.range_zero, List.nil_append, List.map_cons,
      List.map_nil, List.sum_cons, List.sum_nil]
    norm_num
    linarith
  | succ k ih =>
    intro D h1 h2
    rw [List.range_succ_eq_map]
    simp only [List.map_cons, List.map_map, List.sum_cons]
    have hfirst : min 60 (D - ((0 : ℕ) : ℚ) * 60) = 60 := by
      push_cast
      rw [show (0 : ℚ) * 60 = 0 from by ring, sub_zero]
      refine min_eq_left ?_
      push_cast at h1
      nlinarith [Nat.cast_nonneg (α := ℚ) k]
    have hshift : ∀ i : ℕ, min 60 (D - ((Nat.succ i : ℕ) : ℚ) * 60) =
        min 60 ((D - 60) - (i : ℚ) * 60) := by
      intro i
      push_cast
      ring_nf
    have hcomp : ((List.range (k + 1)).map
        ((fun i : ℕ => min 60 (D - (i : ℚ) * 60)) ∘ Nat.succ)).sum =
        ((List.range (k + 1)).map (fun i : ℕ => min 60 ((D - 60) - (i : ℚ) * 60))).sum := by
      congr 1
      refine List.map_congr_left ?_
      intro i _
      simpa using hshift i
    have hrec : (((List.range (k + 1)).map
        (fun i : ℕ => min 60 ((D - 60) - (i : ℚ) * 60))).sum) = D - 60 := by
      refine ih (D - 60) ?_ ?_
      · push_cast at h1 ⊢
        linarith
      · push_cast at h2 ⊢
        linarith
    calc min 60 (D - ((0 : ℕ) : ℚ) * 60) +
          ((List.range (k + 1)).map ((fun i : ℕ => min 60 (D - (i : ℚ) * 60)) ∘ Nat.succ)).sum
        = 60 + (D - 60) := by rw [hfirst, hcomp, hrec]
      _ = D := by ring

/-- C1 (amended): for every probed duration `D > 0` both fixed-mode planners
produce exactly `⌈D/60⌉` jobs with job `i` starting at `i*60`; in the
FullScreen variant job `i`'s length is `min(60, D - i*60)`, the lengths sum
to `D` exactly and consecutive jobs tile with no gap or overlap; in the
Portrait variant every job's length parameter is the constant `60`. -/
theorem C1_fixed_planning (D : ℚ) (hD : 0 < D) :
    segmentCount60 D = ⌈D / 60⌉
  ∧ fsFixedJobs D = (List.range (⌈D / 60⌉).toNat).map
      (fun i : ℕ => ((i : ℚ) * 60, min 60 (D - (i : ℚ) * 60)))
  ∧ ((fsFixedJobs D).map Prod.snd).sum = D
  ∧ List.Chain' (fun a b => a.1 + a.2 = b.1) (fsFixedJobs D)
  ∧ (∀ s ∈ fsFixedJobs D, 0 < s.2 ∧ s.2 ≤ 60)
  ∧ ptFixedJobs D = (List.range (⌈D / 60⌉).toNat).map
      (fun i : ℕ => ((i : ℚ) * 60, (60 : ℚ))) := by
  have hceil := segmentCount60_eq_ceil D
  have hpos : 0 < ⌈D / 60⌉ := Int.ceil_pos.mpr (by positivity)
  obtain ⟨m, hm⟩ : ∃ m, (⌈D / 60⌉).toNat = m + 1 := by
    refine ⟨(⌈D / 60⌉).toNat - 1, ?_⟩
    omega
  obtain ⟨hlow, hhigh⟩ := ceil_bounds hD hm
  refine ⟨hceil, by rw [fsFixedJobs, hceil], ?_, ?_, ?_, by rw [ptFixedJobs, hceil]⟩
  · rw [fsFixedJobs, hceil, hm, List.map_map]
    have : (Prod.snd ∘ fun i : ℕ => ((i : ℚ) * 60, min 60 (D - (i : ℚ) * 60))) =
        fun i : ℕ => min 60 (D - (i : ℚ) * 60) := rfl
    rw [this]
    exact sum_min_sixty m D hlow hhigh
  · rw [fsFixedJobs, hceil, hm]
    rw [List.chain'_map]
    rw [List.chain'_range_succ]
    intro i hi
    have hle : 60 * ((i : ℚ) + 1) ≤ D := by
      have : (i : ℚ) + 1 ≤ (m : ℚ) := by exact_mod_cast hi
      nlinarith
    have : min 60 (D - (i : ℚ) * 60) = 60 := min_eq_left (by linarith)
    simp only [this]
    push_cast
    ring
  · rw [fsFixedJobs, hceil, hm]
    intro s hs
    rw [List.mem_map] at hs
    obtain ⟨i, hi, rfl⟩ := hs
    rw [List.mem_range] at hi
    have hi' : (i : ℚ) ≤ (m : ℚ) := by exact_mod_cast Nat.lt_succ_iff.mp hi
    constructor
    · refine lt_min (by norm_num) ?_
      nlinarith
    · exact min_le_left _ _

/-- Counterexample to C1 as stated: at the probed duration 125 the Portrait
planner's jobs are `(0,60), (60,60), (120,60)` — the third job's length is 60,
not `min(60, 125 - 120) = 5` — and the job lengths sum to 180, not 125. -/
theorem C1_fixed_planning_counterexample :
    ptFixedJobs 125 = [(0, 60), (60, 60), (120, 60)]
  ∧ ((ptFixedJobs 125).map Prod.snd).sum ≠ 125
  ∧ ptFixedJobs 125 ≠
      (List.range 3).map (fun i : ℕ => ((i : ℚ) * 60, min 60 (125 - (i : ℚ) * 60))) := by
  have h3 : (segmentCount60 125).toNat = 3 := by norm_num [segmentCount60]; decide
  have hpt : ptFixedJobs 125 = [(0, 60), (60, 60), (120, 60)] := by
    simp only [ptFixedJobs, h3]
    norm_num [List.range_succ]
  refine ⟨hpt, ?_, ?_⟩
  · rw [hpt]
    norm_num
  · rw [hpt]
    norm_num [List.range_succ]

/-- Witness for C1 at the concrete duration 125. -/
theorem C1_fixed_planning_witness :
    (0 : ℚ) < 125 ∧ ((fsFixedJobs 125).map Prod.snd).sum = 125 :=
  ⟨by norm_num, (C1_fixed_planning 125 (by norm_num)).2.2.1⟩

/-- C2 (amended): for every duration `D > 0` not divisible by 60, the
FullScreen planner's last job has length exactly `D mod 60`
(`D - 60*⌊D/60⌋`), never padded to 60; the Portrait planner instead passes
the constant length 60 for every job, the last one included (the external
encoder's duration bound then truncates at end of input). -/
theorem C2_last_segment_remainder (D : ℚ) (hD : 0 < D)
    (hrem : D - 60 * ⌊D / 60⌋ > 0) :
    (fsFixedJobs D).getLast? =
      some (((⌊D / 60⌋ : ℤ) : ℚ) * 60, D - 60 * ⌊D / 60⌋)
  ∧ (∀ s ∈ ptFixedJobs D, s.2 = 60) := by
  have h60 : (0 : ℚ) < 60 := by norm_num
  have hfl : 0 ≤ ⌊D / 60⌋ := Int.floor_nonneg.mpr (by positivity)
  have hcount : segmentCount60 D = ⌊D / 60⌋ + 1 := by
    rw [segmentCount60, if_pos hrem]
  have hton : (segmentCount60 D).toNat = (⌊D / 60⌋).toNat + 1 := by
    rw [hcount]
    obtain ⟨k, hk⟩ := Int.eq_ofNat_of_zero_le hfl
    rw [hk]
    omega
  constructor
  · rw [fsFixedJobs, hton, List.range_succ, List.map_append, List.map_cons, List.map_nil]
    rw [List.getLast?_concat]
    have hcast : (((⌊D / 60⌋).toNat : ℕ) : ℚ) = ((⌊D / 60⌋ : ℤ) : ℚ) := by
      exact_mod_cast Int.toNat_of_nonneg hfl
    have hlt : D - ((⌊D / 60⌋ : ℤ) : ℚ) * 60 ≤ 60 := by
      have := Int.lt_floor_add_one (D / 60)
      rw [div_lt_iff h60] at this
      linarith
    rw [hcast]
    have : min 60 (D - ((⌊D / 60⌋ : ℤ) : ℚ) * 60) = D - ((⌊D / 60⌋ : ℤ) : ℚ) * 60 :=
      min_eq_right hlt
    rw [this]
    rw [show D - ((⌊D / 60⌋ : ℤ) : ℚ) * 60 = D - 60 * ⌊D / 60⌋ from by ring]
  · intro s hs
    rw [ptFixedJobs, List.mem_map] at hs
    obtain ⟨i, _, rfl⟩ := hs
    rfl

/-- Counterexample to C2 as stated: at duration 125 the Portrait planner's
job lengths are `[60, 60, 60]`, not the claimed `[60, 60, 5]`; the FullScreen
planner does produce `[60, 60, 5]`. -/
theorem C2_last_segment_remainder_counterexample :
    (ptFixedJobs 125).map Prod.snd = [60, 60, 60]
  ∧ (ptFixedJobs 125).map Prod.snd ≠ [60, 60, 5]
  ∧ (fsFixedJobs 125).map Prod.snd = [60, 60, 5] := by
  have h3 : (segmentCount60 125).toNat = 3 := by norm_num [segmentCount60]; decide
  have hpt : ptFixedJobs 125 = [(0, 60), (60, 60), (120, 60)] := by
    simp only [ptFixedJobs, h3]
    norm_num [List.range_succ]
  have hfs : fsFixedJobs 125 = [(0, 60), (60, 60), (120, 5)] := by
    simp only [fsFixedJobs, h3]
    norm_num [List.range_succ]
  rw [hpt, hfs]
  refine ⟨rfl, by decide, rfl⟩

/-- Witness for C2 at the concrete duration 125. -/
theorem C2_last_segment_remainder_witness :
    (0 : ℚ) < 125 ∧ (125 : ℚ) - 60 * ⌊(125 : ℚ) / 60⌋ > 0 ∧
    (fsFixedJobs 125).getLast? =
      some (((⌊(125 : ℚ) / 60⌋ : ℤ) : ℚ) * 60, (125 : ℚ) - 60 * ⌊(125 : ℚ) / 60⌋) := by
  have h1 : (0 : ℚ) < 125 := by norm_num
  have h2 : (125 : ℚ) - 60 * ⌊(125 : ℚ) / 60⌋ > 0 := by norm_num
  exact ⟨h1, h2, (C2_last_segment_remainder 125 h1 h2).1⟩

/-! ## Custom-mode segment invariants -/

/-- Lengths of the consecutive gaps between adjacent split points. -/
def gapList (points : List ℚ) : List ℚ :=
  (points.zip points.tail).map (fun se => se.2 - se.1)

lemma segmentsOf_cons_cons (a b : ℚ) (rest : List ℚ) :
    segmentsOf (a :: b :: rest) =
      (if b - a > minSegLen then [(a, b - a)] else []) ++ segmentsOf (b :: rest) := by
  simp only [segmentsOf, List.tail_cons, List.zip_cons_cons, List.filterMap_cons]
  split_ifs with h <;> simp

lemma mem_segmentsOf {points : List ℚ} {s : ℚ × ℚ} (hs : s ∈ segmentsOf points) :
    minSegLen < s.2 ∧ s.1 ∈ points ∧ s.1 + s.2 ∈ points := by
  unfold segmentsOf at hs
  rw [List.mem_filterMap] at hs
  obtain ⟨⟨a, b⟩, hab, hf⟩ := hs
  by_cases h : b - a > minSegLen
  · rw [if_pos h] at hf
    obtain rfl : (a, b - a) = s := by simpa using hf
    have hmem := List.mem_zip hab
    refine ⟨h, hmem.1, ?_⟩
    have : a + (b - a) = b := by ring
    rw [this]
    exact List.tail_subset _ hmem.2
  · rw [if_neg h] at hf
    cases hf

lemma segmentsOf_chain {points : List ℚ} (hs : List.Sorted (· ≤ ·) points) :
    List.Chain' (fun s t => s.1 + s.2 ≤ t.1 ∧ s.1 < t.1) (segmentsOf points) := by
  induction points with
  | nil => exact List.chain'_nil
  | cons a rest ih =>
    cases rest with
    | nil => exact List.chain'_nil
    | cons b rest2 =>
      have htail : List.Sorted (· ≤ ·) (b :: rest2) := hs.of_cons
      rw [segmentsOf_cons_cons]
      by_cases h : b - a > minSegLen
      · rw [if_pos h, List.singleton_append, List.chain'_cons']
        refine ⟨?_, ih htail⟩
        intro y hy
        have hymem : y ∈ segmentsOf (b :: rest2) := List.mem_of_mem_head? hy
        have hy1 := (mem_segmentsOf hymem).2.1
        have hble : b ≤ y.1 := by
          rcases List.mem_cons.mp hy1 with h1 | h1
          · rw [h1]
          · exact (List.sorted_cons.mp htail).1 y.1 h1
        have hminpos : (0 : ℚ) < minSegLen := by norm_num [minSegLen]
        constructor
        · have : a + (b - a) = b := by ring
          rw [this]
          exact hble
        · have : a < b := by linarith
          linarith
      · rw [if_neg h, List.nil_append]
        exact ih htail

lemma sorted_head?_le {l : List ℚ} (hs : List.Sorted (· ≤ ·) l) {a : ℚ}
    (hh : l.head? = some a) : ∀ x ∈ l, a ≤ x := by
  cases l with
  | nil => cases hh
  | cons b t =>
    obtain rfl : b = a := by simpa using hh
    intro x hx
    rcases List.mem_cons.mp hx with h | h
    · rw [h]
    · exact (List.sorted_cons.mp hs).1 x h

lemma sorted_le_getLast? : ∀ {l : List ℚ}, List.Sorted (· ≤ ·) l → ∀ {a : ℚ},
    l.getLast? = some a → ∀ x ∈ l, x ≤ a := by
  intro l
  induction l with
  | nil => intro _ a ha; cases ha
  | cons b t ih =>
    intro hs a hlast x hx
    cases t with
    | nil =>
      obtain rfl : b = a := by simpa using hlast
      rcases List.mem_singleton.mp hx with rfl
      exact le_refl x
    | cons c t2 =>
      rw [List.getLast?_cons_cons] at hlast
      have htail : List.Sorted (· ≤ ·) (c :: t2) := hs.of_cons
      rcases List.mem_cons.mp hx with h | h
      · have hbc : b ≤ c := (List.sorted_cons.mp hs).1 c (List.mem_cons_self c t2)
        have hca : c ≤ a := ih htail hlast c (List.mem_cons_self c t2)
        rw [h]
        exact hbc.trans hca
      · exact ih htail hlast x h

lemma gapList_sum : ∀ (rest : List ℚ) (a : ℚ),
    (gapList (a :: rest)).sum = (a :: rest).getLast (by simp) - a := by
  intro rest
  induction rest with
  | nil => intro a; simp [gapList]
  | cons b rest2 ih =>
    intro a
    have hstep : gapList (a :: b :: rest2) = (b - a) :: gapList (b :: rest2) := by
      simp [gapList, List.zip_cons_cons]
    rw [hstep, List.sum_cons, ih b,
      List.getLast_cons (l := b :: rest2) (by simp)]
    ring

lemma filter_sum_split (p : ℚ → Bool) :
    ∀ l : List ℚ, (l.filter p).sum + (l.filter (fun x => !(p x))).sum = l.sum := by
  intro l
  induction l with
  | nil => simp
  | cons a t ih =>
    by_cases h : p a <;> simp [List.filter_cons, h] <;> linarith [ih]

lemma segmentsOf_lengths (points : List ℚ) :
    (segmentsOf points).map Prod.snd =
      (gapList points).filter (fun g => decide (g > minSegLen)) := by
  unfold segmentsOf gapList
  induction points.zip points.tail with
  | nil => rfl
  | cons se t ih =>
    simp only [List.filterMap_cons, List.map_cons, List.filter_cons]
    by_cases h : se.2 - se.1 > minSegLen
    · rw [if_pos h]
      simp only [List.map_cons, ih]
      simp [h]
    · rw [if_neg h]
      simp only [ih]
      simp [h]

lemma sorted_head?_eq {l : List ℚ} (hs : List.Sorted (· ≤ ·) l) {a : ℚ}
    (ha : a ∈ l) (hmin : ∀ x ∈ l, a ≤ x) : l.head? = some a := by
  cases l with
  | nil => cases ha
  | cons b t =>
    have hba : a ≤ b := hmin b (List.mem_cons_self b t)
    have hab : b ≤ a := by
      rcases List.mem_cons.mp ha with h | h
      · rw [h]
      · exact (List.sorted_cons.mp hs).1 a h
    simp [le_antisymm hab hba]

lemma sorted_getLast?_eq : ∀ {l : List ℚ}, List.Sorted (· ≤ ·) l → ∀ {a : ℚ},
    a ∈ l → (∀ x ∈ l, x ≤ a) → l.getLast? = some a := by
  intro l
  induction l with
  | nil => intro _ a ha _; cases ha
  | cons b t ih =>
    intro hs a ha hmax
    cases t with
    | nil =>
      rcases List.mem_singleton.mp ha with rfl
      rfl
    | cons c t2 =>
      rw [List.getLast?_cons_cons]
      have htail : List.Sorted (· ≤ ·) (c :: t2) := hs.of_cons
      have hmax' : ∀ x ∈ c :: t2, x ≤ a := fun x hx => hmax x (List.mem_cons_of_mem b hx)
      have ha' : a ∈ c :: t2 := by
        rcases List.mem_cons.mp ha with h | h
        · subst h
          have hbc : a ≤ c := (List.sorted_cons.mp hs).1 c (List.mem_cons_self c t2)
          have hcb : c ≤ a := hmax c (List.mem_cons_of_mem a (List.mem_cons_self c t2))
          rw [← le_antisymm hcb hbc]
          exact List.mem_cons_self c t2
        · exact h
      exact ih htail ha' hmax'

/-- C4: for every sorted cut-point list bracketed by 0 and the duration `D`,
every emitted segment's length strictly exceeds the 0.1-second threshold,
consecutive segments are disjoint with strictly increasing starts, the kept
segment lengths plus the dropped sub-threshold gaps sum exactly to `D`, every
segment lies inside `[0, D]`, and the spec's concrete example — cut times 30
and 30.05 on a 100-second video — yields exactly the segments `(0, 30)` and
`(30.05, 69.95)`, the 0.05-second gap being dropped. -/
theorem C4_custom_segment_invariants (points : List ℚ) (D : ℚ)
    (hsort : List.Sorted (· ≤ ·) points)
    (hhead : points.head? = some 0) (hlast : points.getLast? = some D) :
    (∀ s ∈ segmentsOf points, minSegLen < s.2)
  ∧ List.Chain' (fun s t => s.1 + s.2 ≤ t.1) (segmentsOf points)
  ∧ List.Chain' (· < ·) ((segmentsOf points).map Prod.fst)
  ∧ ((segmentsOf points).map Prod.snd).sum +
      ((gapList points).filter (fun g => !(decide (g > minSegLen)))).sum = D
  ∧ (∀ s ∈ segmentsOf points, 0 ≤ s.1 ∧ s.1 + s.2 ≤ D)
  ∧ segmentsOf (customSplitPoints [30, 601/20] 100) =
      [(0, 30), (601/20, 1399/20)] := by
  have hchain := segmentsOf_chain hsort
  refine ⟨fun s hs => (mem_segmentsOf hs).1, ?_, ?_, ?_, ?_, ?_⟩
  · exact hchain.imp (fun a b h => h.1)
  · rw [List.chain'_map]
    exact hchain.imp (fun a b h => h.2)
  · cases points with
    | nil => cases hhead
    | cons p rest =>
      obtain rfl : p = 0 := by simpa using hhead
      rw [segmentsOf_lengths, filter_sum_split, gapList_sum rest 0]
      have hgl : ((0 : ℚ) :: rest).getLast (by simp) = D := by
        have h := List.getLast?_eq_getLast ((0 : ℚ) :: rest) (by simp)
        rw [h] at hlast
        simpa using hlast
      rw [hgl]
      ring
  · intro s hs
    obtain ⟨hl, hm1, hm2⟩ := mem_segmentsOf hs
    exact ⟨sorted_head?_le hsort hhead s.1 hm1,
           sorted_le_getLast? hsort hlast (s.1 + s.2) hm2⟩
  · have h : customSplitPoints [30, 601/20] 100 = [0, 30, 601/20, 100] := by
      norm_num [customSplitPoints, List.insertionSort, List.orderedInsert]
    rw [h]
    norm_num [segmentsOf, minSegLen, List.filterMap_cons]

/-- Witness for C4 at the concrete sorted bracketed cut-point list
`[0, 30, 100]` of a 100-second video. -/
theorem C4_custom_segment_invariants_witness :
    List.Sorted (· ≤ ·) [(0 : ℚ), 30, 100]
  ∧ [(0 : ℚ), 30, 100].head? = some 0
  ∧ [(0 : ℚ), 30, 100].getLast? = some 100
  ∧ ((segmentsOf [(0 : ℚ), 30, 100]).map Prod.snd).sum +
      ((gapList [(0 : ℚ), 30, 100]).filter (fun g => !(decide (g > minSegLen)))).sum
      = 100 :=
  ⟨by decide, by decide, by decide,
   (C4_custom_segment_invariants [0, 30, 100] 100 (by decide) (by decide)
      (by decide)).2.2.2.1⟩

/-! ## CutPoint set construction -/

lemma mem_customSplitPoints {parsed : List ℚ} {D x : ℚ} :
    x ∈ customSplitPoints parsed D ↔
      x = 0 ∨ x = D ∨ (x ∈ parsed ∧ 0 < x ∧ x < D) := by
  unfold customSplitPoints
  rw [(List.perm_insertionSort (· ≤ ·) _).mem_iff]
  simp only [List.mem_append, List.mem_cons, List.mem_singleton, List.mem_filter,
    List.mem_nil_iff, or_false, decide_eq_true_eq]
  constructor
  · rintro ((h | ⟨hp, h1, h2⟩) | h)
    · exact Or.inl h
    · exact Or.inr (Or.inr ⟨hp, h1, h2⟩)
    · exact Or.inr (Or.inl h)
  · rintro (h | h | ⟨hp, h1, h2⟩)
    · exact Or.inl (Or.inl h)
    · exact Or.inr h
    · exact Or.inl (Or.inr ⟨hp, h1, h2⟩)

/-- C8 (amended): the list used for segmentation is sorted ascending, starts
at the synthetic boundary 0 and ends at the synthetic boundary `D`, contains
besides those only user cut values strictly between 0 and `D`, and retains
every in-range user cut value.  It is NOT deduplicated: a duplicated user cut
value appears twice (the zero-length gap it creates is dropped later by the
0.1-second threshold). -/
theorem C8_cutpoint_construction (parsed : List ℚ) (D : ℚ) (hD : 0 < D) :
    List.Sorted (· ≤ ·) (customSplitPoints parsed D)
  ∧ (customSplitPoints parsed D).head? = some 0
  ∧ (customSplitPoints parsed D).getLast? = some D
  ∧ (∀ x ∈ customSplitPoints parsed D, x = 0 ∨ x = D ∨ (x ∈ parsed ∧ 0 < x ∧ x < D))
  ∧ (∀ p ∈ parsed, 0 < p → p < D → p ∈ customSplitPoints parsed D) := by
  have hsort : List.Sorted (· ≤ ·) (customSplitPoints parsed D) :=
    List.sorted_insertionSort (· ≤ ·) _
  have hbounds : ∀ x ∈ customSplitPoints parsed D, 0 ≤ x ∧ x ≤ D := by
    intro x hx
    rcases mem_customSplitPoints.mp hx with rfl | rfl | ⟨_, h1, h2⟩
    · exact ⟨le_refl 0, hD.le⟩
    · exact ⟨hD.le, le_refl x⟩
    · exact ⟨h1.le, h2.le⟩
  refine ⟨hsort, ?_, ?_, fun x hx => mem_customSplitPoints.mp hx,
    fun p hp h1 h2 => mem_customSplitPoints.mpr (Or.inr (Or.inr ⟨hp, h1, h2⟩))⟩
  · exact sorted_head?_eq hsort (mem_customSplitPoints.mpr (Or.inl rfl))
      (fun x hx => (hbounds x hx).1)
  · exact sorted_getLast?_eq hsort (mem_customSplitPoints.mpr (Or.inr (Or.inl rfl)))
      (fun x hx => (hbounds x hx).2)

/-- Counterexample to C8 as stated: the duplicated user cut value 30 on a
100-second video survives into the split-point list twice — the list is not
deduplicated. -/
theorem C8_cutpoint_construction_counterexample :
    customSplitPoints [30, 30] 100 = [0, 30, 30, 100]
  ∧ ¬ (customSplitPoints [30, 30] 100).Nodup := by
  constructor
  · decide
  · decide

/-- Witness for C8 at the duplicated cut list `[30, 30]` with duration 100. -/
theorem C8_cutpoint_construction_witness :
    (0 : ℚ) < 100
  ∧ (customSplitPoints [30, 30] 100).head? = some 0
  ∧ (customSplitPoints [30, 30] 100).getLast? = some 100 :=
  ⟨by norm_num,
   (C8_cutpoint_construction [30, 30] 100 (by norm_num)).2.1,
   (C8_cutpoint_construction [30, 30] 100 (by norm_num)).2.2.1⟩

end YtSplit
